import Mathlib

/-!
# Verification of the stock-analysis strategy code

Shallow embedding of the signal-composition and position-allocation code of
the `stock-analysis` repository:

* `strategy_class/oscar_tw_strategy.py` (`OscarTWStrategy`): streak counting,
  SAR / MACD / volume / institutional conditions, buy/sell composition,
  look-ahead shift, hold-until projection, per-date capacity truncation;
* `strategy_class/roger_tw_strategy_base.py` (`RogerTWStrategyBase`):
  recommendation batching, deduplication, position construction;
* `strategy_class/roger_tw_strategy_monthly.py` (`RogerTWStrategyMonthly`);
* `tests/oscar_tw_strategy/max_stock_test_executor.py`
  (`MaxStockTestExecutor._test_single_config`): numpy row truncation.

Matrices are row-major `List (List α)` (rows = trading dates, columns =
instruments).  Missing values (pandas `NaN`) are `Option.none`; pandas
comparisons against `NaN` yield `False`, which the cell comparison functions
reproduce.  Machine floats are modelled by `ℚ`.
-/

namespace StockAnalysis

/-! ## Streak counting (`OscarTWStrategy._streak`)

The python code computes, per column,
`groups = (~col_bool).cumsum()` and then
`col_bool.astype(int).groupby(groups).cumsum()`.
`pdCumsum` is pandas `Series.cumsum` (prefix sums) and `pdGroupbyCumsum`
is pandas `groupby(groups).cumsum()`: entry `i` is the sum of all earlier
values (inclusive) belonging to the same group as entry `i`. -/

def pdCumsum (xs : List Nat) : List Nat :=
  (List.range xs.length).map (fun i => ((xs.take (i + 1)).sum))

def pdGroupbyCumsum (groups vals : List Nat) : List Nat :=
  (List.range vals.length).map (fun i =>
    (((List.range (i + 1)).map (fun j =>
      if groups.getD j 0 = groups.getD i 0 then vals.getD j 0 else 0)).sum))

/-- Missing booleans are `fillna(False)` (pandas). -/
def optB (x : Option Bool) : Bool := x.getD false

/-- `OscarTWStrategy._streak._col_streak`: run length of consecutive `True`
values in one column. -/
def colStreak (col : List (Option Bool)) : List Nat :=
  let b := col.map optB
  let groups := pdCumsum (b.map (fun v => if v then 0 else 1))
  pdGroupbyCumsum groups (b.map (fun v => if v then 1 else 0))

/-- Weighted count of `False` entries among the first `m` boolean values of a
column (the value pandas' `(~col_bool).cumsum()` reaches after `m` rows). -/
def fCnt (col : List (Option Bool)) (m : Nat) : Nat :=
  (((col.map optB).map (fun v => if v then 0 else 1)).take m).sum

/-! ## Capacity truncation

`OscarTWStrategy.run_strategy` (lines 284–293) iterates over the dates of
`base_position`; for each date with any eligible instrument it takes the
eligible column labels in column order, truncates to `max_stocks`, and marks
exactly those in a freshly created all-`False` frame.
`MaxStockTestExecutor._test_single_config` (lines 127–147) does the same
row-wise on the numpy value array: rows with more than `n_stocks` `True`
entries are zeroed and their first `n_stocks` `True` positions restored. -/

/-- Number of `True` cells in a row. -/
def countTrue (row : List Bool) : Nat := row.countP (fun b => b)

/-- Column positions holding `True`, in fixed column order
(`can_hold[can_hold].index.tolist()` / `row_values.nonzero()[0]`). -/
def trueIndices (row : List Bool) : List Nat :=
  (List.range row.length).filter (fun j => row.getD j false)

/-- Mark one column `True` (`final_position.loc[date, stock] = True` /
`final_position_values[i, idx] = True`). -/
def setTrue (acc : List Bool) (j : Nat) : List Bool := acc.set j true

/-- One date of the `run_strategy` holding-cap loop. -/
def oscarSelectRow (k : Nat) (row : List Bool) : List Bool :=
  if row.any (fun b => b) then
    ((trueIndices row).take k).foldl setTrue (List.replicate row.length false)
  else
    List.replicate row.length false

/-- The whole `run_strategy` holding-cap loop over all dates. -/
def oscarAllocate (k : Nat) (m : List (List Bool)) : List (List Bool) :=
  m.map (oscarSelectRow k)

/-- One row of `MaxStockTestExecutor._test_single_config`'s numpy loop. -/
def numpyTruncRow (k : Nat) (row : List Bool) : List Bool :=
  if row.any (fun b => b) then
    let ti := trueIndices row
    if k < ti.length then
      (ti.take k).foldl setTrue (List.replicate row.length false)
    else row
  else row

/-- The whole numpy truncation loop of `_test_single_config`. -/
def numpyTruncate (k : Nat) (m : List (List Bool)) : List (List Bool) :=
  m.map (numpyTruncRow k)

/-- Pure specification: keep only the first `k` `True` entries of a row. -/
def keepFirstK : Nat → List Bool → List Bool
  | _, [] => []
  | k, b :: rest =>
    if b then
      match k with
      | 0 => false :: keepFirstK 0 rest
      | k' + 1 => true :: keepFirstK k' rest
    else
      false :: keepFirstK k rest

/-! ## Cells and elementwise matrix operations

`Cell` is one value of a pandas float frame (`none` = `NaN`).  pandas
comparisons involving `NaN` are `False`, which the `cell*` comparisons
reproduce.  Elementwise frame combinators are `zipWith`s; all frames in one
computation share their index/columns (the data-provider aligns them). -/

abbrev Cell := Option ℚ

/-- Row-major value matrix (rows = dates, columns = instruments). -/
abbrev SeriesM := List (List Cell)

/-- Row-major boolean matrix. -/
abbrev BoolM := List (List Bool)

def cellLt (a b : Cell) : Bool :=
  match a, b with
  | some x, some y => decide (x < y)
  | _, _ => false

def cellLe (a b : Cell) : Bool :=
  match a, b with
  | some x, some y => decide (x ≤ y)
  | _, _ => false

def cellGt (a b : Cell) : Bool :=
  match a, b with
  | some x, some y => decide (y < x)
  | _, _ => false

def cellGe (a b : Cell) : Bool :=
  match a, b with
  | some x, some y => decide (y ≤ x)
  | _, _ => false

/-- `series > 0` (used on the institutional net-buy series). -/
def cellPos (a : Cell) : Bool :=
  match a with
  | some x => decide (0 < x)
  | none => false

/-- Multiply a cell by a scalar (`avg_volume_30 * 0.5`, `* 10`). -/
def cellScale (q : ℚ) (a : Cell) : Cell := a.map (fun x => x * q)

def matZip (f : α → β → γ) (m1 : List (List α)) (m2 : List (List β)) : List (List γ) :=
  List.zipWith (List.zipWith f) m1 m2

def matMap (f : α → β) (m : List (List α)) : List (List β) := m.map (List.map f)

def matAnd (m1 m2 : BoolM) : BoolM := matZip and m1 m2

def matOr (m1 m2 : BoolM) : BoolM := matZip or m1 m2

def matNot (m : BoolM) : BoolM := matMap not m

/-- Cell of a boolean matrix, `False` when out of range. -/
def cellD (m : BoolM) (i j : Nat) : Bool := (m.getD i []).getD j false

/-- pandas `DataFrame.shift(1)` on a float frame: every column moves down one
row, the first row becomes `NaN`. -/
def matShift1 (m : SeriesM) : SeriesM :=
  match m with
  | [] => []
  | r :: _ => (r.map (fun _ => none)) :: m.dropLast

/-- pandas `DataFrame.shift(1)` on a boolean frame, with the leading `NaN`
row read back as `False` (absence of signal) by all consumers. -/
def matShiftB (m : BoolM) : BoolM :=
  match m with
  | [] => []
  | r :: _ => (r.map (fun _ => false)) :: m.dropLast

/-! ## Rolling windows (pandas `rolling(n)`, applied per column) -/

/-- The `n`-wide window of column `xs` ending at row `i` (shorter near the
top of the column). -/
def windowAt (n i : Nat) (xs : List Cell) : List Cell :=
  (xs.take (i + 1)).drop (i + 1 - n)

/-- `rolling(n).max()`: `NaN` until `n` non-missing values fill the window. -/
def rollingMax (n : Nat) (xs : List Cell) : List Cell :=
  (List.range xs.length).map (fun i =>
    let w := windowAt n i xs
    if decide (n ≤ i + 1) && !(w.any (fun c => c.isNone)) then
      match w.filterMap id with
      | [] => none
      | x :: rest => some (rest.foldl max x)
    else none)

/-- `rolling(n).mean()` on a float column. -/
def rollingMeanQ (n : Nat) (xs : List Cell) : List Cell :=
  (List.range xs.length).map (fun i =>
    let w := windowAt n i xs
    if decide (n ≤ i + 1) && !(w.any (fun c => c.isNone)) then
      some (((w.filterMap id).foldl (fun a b => a + b) 0) / (n : ℚ))
    else none)

/-- `rolling(n).mean()` on a boolean column (`is_new_high`): booleans have no
missing values, the mean is the fraction of `True` in the window. -/
def rollingMeanB (n : Nat) (xs : List Bool) : List Cell :=
  (List.range xs.length).map (fun i =>
    if decide (n ≤ i + 1) then
      some ((((xs.take (i + 1)).drop (i + 1 - n)).countP (fun b => b) : ℚ) / (n : ℚ))
    else none)

/-- Apply a per-column operation to a row-major frame. -/
def matPerCol (f : List α → List β) (m : List (List α)) : List (List β) :=
  (m.transpose.map f).transpose

/-- `OscarTWStrategy._streak` on a whole boolean frame (per column). -/
def matStreak (m : BoolM) : List (List Nat) :=
  matPerCol (fun col => colStreak (col.map some)) m

/-! ## Market data and the Oscar signal pipeline

The price/volume/institutional series come from the finlab data provider,
the SAR and MACD (`dif`/`dea`) series from its indicator API; the pipeline
consumes them as opaque aligned frames. -/

structure MarketData where
  adjClose : SeriesM
  volume : SeriesM
  foreignNetBuy : SeriesM
  trustNetBuy : SeriesM
  dealerNetBuy : SeriesM
  sar : SeriesM
  dif : SeriesM
  dea : SeriesM

/-- `OscarTWStrategy._calculate_sar_condition`. -/
def calcSarCondition (md : MarketData) (sarMaxDots : Nat) : BoolM × BoolM :=
  let sarBelowPrice := matZip cellLt md.sar md.adjClose
  let sarStreak := matStreak sarBelowPrice
  let sarInBuyZone := matMap (fun s => decide (1 ≤ s) && decide (s ≤ sarMaxDots)) sarStreak
  let high120 := matPerCol (rollingMax 120) md.adjClose
  let isNewHigh := matZip cellGe md.adjClose high120
  let newHighRatio120 := matPerCol (rollingMeanB 120) isNewHigh
  let constantlyNewHigh := matMap (fun c => cellGt c (some ((3 : ℚ) / 10))) newHighRatio120
  let sarBuyCondition := matAnd sarInBuyZone (matNot constantlyNewHigh)
  let sarSellCondition := matNot sarBelowPrice
  (sarBuyCondition, sarSellCondition)

/-- `OscarTWStrategy._calculate_macd_condition`. -/
def calcMacdCondition (md : MarketData) : BoolM × BoolM :=
  let difPrev := matShift1 md.dif
  let deaPrev := matShift1 md.dea
  let macdBuyCondition := matAnd (matZip cellGt md.dif md.dea) (matZip cellLe difPrev deaPrev)
  let macdSellCondition := matAnd (matZip cellLt md.dif md.dea) (matZip cellGe difPrev deaPrev)
  (macdBuyCondition, macdSellCondition)

/-- `OscarTWStrategy._calculate_volume_condition`. -/
def calcVolumeCondition (volume : SeriesM) : BoolM :=
  let avgVolume30 := matPerCol (rollingMeanQ 30) volume
  let volumeAboveAvg := matZip cellGt volume (matMap (cellScale ((1 : ℚ) / 2)) avgVolume30)
  let sufficientLiquidity := matMap (fun c => cellGt c (some ((1000000 : ℚ)))) avgVolume30
  let notAbnormalVolume := matZip cellLt volume (matMap (cellScale (10 : ℚ)) avgVolume30)
  matAnd (matAnd volumeAboveAvg sufficientLiquidity) notAbnormalVolume

/-- `OscarTWStrategy._calculate_institutional_condition`. -/
def calcInstitutionalCondition (foreignNetBuy trustNetBuy dealerNetBuy : SeriesM) :
    BoolM × BoolM :=
  let foreignBuy := matMap cellPos foreignNetBuy
  let trustBuy := matMap cellPos trustNetBuy
  let dealerBuy := matMap cellPos dealerNetBuy
  let toInt := matMap (fun b => if b then (1 : Nat) else 0)
  let buyCount := matZip (fun a b => a + b) (matZip (fun a b => a + b) (toInt foreignBuy) (toInt trustBuy)) (toInt dealerBuy)
  let strong := matMap (fun c => decide (c = 3)) buyCount
  let weak := matMap (fun c => decide (2 ≤ c)) buyCount
  (strong, weak)

/-- `OscarTWStrategy._build_buy_condition`. -/
def buildBuyCondition (md : MarketData) (sarMaxDots : Nat) : BoolM :=
  let sarBuy := (calcSarCondition md sarMaxDots).1
  let macdBuy := (calcMacdCondition md).1
  let volumeOk := calcVolumeCondition md.volume
  let institutionalWeak :=
    (calcInstitutionalCondition md.foreignNetBuy md.trustNetBuy md.dealerNetBuy).2
  let coreCondition := matAnd (matAnd sarBuy macdBuy) volumeOk
  matAnd coreCondition institutionalWeak

/-- `OscarTWStrategy._build_sell_condition`. -/
def buildSellCondition (md : MarketData) (sarMaxDots : Nat) : BoolM :=
  let sarSell := (calcSarCondition md sarMaxDots).2
  let macdSell := (calcMacdCondition md).2
  matOr sarSell macdSell

/-! ## Hold-until (the `PositionStateMachine`)

Modelled from the spec: `buy_signal.hold_until(sell_signal)` is finlab
library code not present in this repository.  Spec §4.4: a per-instrument
2-state machine, initial state `flat`; `flat --buy--> held`,
`held --sell--> flat`; when both events fire, a buy wins from `flat`
and a sell wins from `held`. -/

def holdStep (s b sl : Bool) : Bool := if s then !sl else b

def holdUntilAux (s : Bool) : List Bool → List Bool → List Bool
  | b :: bs, sl :: sls =>
    let s' := holdStep s b sl
    s' :: holdUntilAux s' bs sls
  | _, _ => []

/-- Hold-until on one instrument column, starting `flat`. -/
def holdUntilCol (buy sell : List Bool) : List Bool := holdUntilAux false buy sell

/-- Shift one column forward by one trading period (pandas `shift(1)`:
leading missing value read as `False`). -/
def shiftCol (l : List Bool) : List Bool :=
  match l with
  | [] => []
  | _ :: _ => false :: l.dropLast

/-- Forward shift on a column-major matrix. -/
def shiftCols (m : List (List Bool)) : List (List Bool) := m.map shiftCol

/-- Hold-until on a column-major matrix (instrument columns paired). -/
def holdUntilCols (buyCols sellCols : List (List Bool)) : List (List Bool) :=
  List.zipWith holdUntilCol buyCols sellCols

/-- Hold-until on row-major frames. -/
def matHoldUntil (buy sell : BoolM) : BoolM :=
  (holdUntilCols buy.transpose sell.transpose).transpose

/-! ## `OscarTWStrategy.__init__` and `run_strategy` -/

structure OscarStrategy where
  sarMaxDots : Nat
  sarRejectDots : Nat
  buySignal : BoolM
  sellSignal : BoolM
  basePosition : BoolM

/-- `OscarTWStrategy.__init__`: build the buy/sell conditions, shift both by
one period, project through hold-until.  Both constructor parameters are
stored on the instance. -/
def oscarInit (md : MarketData) (sarMaxDots sarRejectDots : Nat) : OscarStrategy :=
  let buySignal := matShiftB (buildBuyCondition md sarMaxDots)
  let sellSignal := matShiftB (buildSellCondition md sarMaxDots)
  { sarMaxDots := sarMaxDots
    sarRejectDots := sarRejectDots
    buySignal := buySignal
    sellSignal := sellSignal
    basePosition := matHoldUntil buySignal sellSignal }

/-- The position built by `run_strategy` before the backtest call:
`base_position.loc[start_date:]` (drop the rows before the start date)
followed by the per-date holding-cap loop. -/
def oscarRunPosition (s : OscarStrategy) (maxStocks startIdx : Nat) : BoolM :=
  oscarAllocate maxStocks (s.basePosition.drop startIdx)

/-! ## Recommendation-driven strategy (`RogerTWStrategyBase`)

Dates are modelled as day numbers with day `0` a Monday, so that
`d % 7` is pandas `Timestamp.weekday()` (Monday = 0 … Sunday = 6). -/

/-- One entry of a recommendation list (`stock.id`, `stock.priority`).
`id = none` models a missing/falsy identifier, `priority = none` a missing
priority (python sorts it as `float("inf")`, i.e. last). -/
structure Stock where
  id : Option String
  priority : Option Nat
deriving DecidableEq

/-- One `RecommendationRecord` from the DAO: `date = none` models a
missing/falsy date, an empty `stocks` list a falsy stock list. -/
structure RecRecord where
  date : Option Nat
  stocks : List Stock
deriving DecidableEq

/-- A record survives `if not date or not stocks: continue`. -/
def recValid (r : RecRecord) : Bool := r.date.isSome && !r.stocks.isEmpty

/-- `aligned_date = dt + Timedelta(days=6 - dt.weekday())`: the next Sunday
at or after `d`. -/
def alignedDate (d : Nat) : Nat := d + (6 - d % 7)

/-- `weekly_batches`: an insertion-ordered dict from aligned date to
`(original_date, stocks)`, modelled as an association list. -/
abbrev Batches := List (Nat × Nat × List Stock)

def batchLookup : Batches → Nat → Option (Nat × List Stock)
  | [], _ => none
  | (k', v) :: rest, k => if k' = k then some v else batchLookup rest k

/-- Python dict assignment: replace in place, or append a new key at the
end. -/
def batchUpdate : Batches → Nat → Nat × List Stock → Batches
  | [], k, v => [(k, v)]
  | (k', v') :: rest, k, v =>
    if k' = k then (k, v) :: rest else (k', v') :: batchUpdate rest k v

/-- One loop iteration of `_create_position_df`'s batching pass. -/
def recFoldStep (bs : Batches) (r : RecRecord) : Batches :=
  match r.date with
  | none => bs
  | some d =>
    if r.stocks.isEmpty then bs
    else
      let key := alignedDate d
      match batchLookup bs key with
      | none => batchUpdate bs key (d, r.stocks)
      | some (d0, _) => if d0 < d then batchUpdate bs key (d, r.stocks) else bs

def buildWeeklyBatches (records : List RecRecord) : Batches :=
  records.foldl recFoldStep []

/-- Python `sorted(stock_list, key=priority-or-inf)` comparison: a missing
priority sorts last. -/
def priLe (a b : Stock) : Bool :=
  match a.priority, b.priority with
  | none, none => true
  | none, some _ => false
  | some _, none => true
  | some x, some y => decide (x ≤ y)

/-- The `records` list built from `weekly_batches`: per batch, sort the
stocks by priority, truncate to `max_stocks`, keep entries with a truthy
id. -/
def sigRecords (maxStocks : Nat) (batches : Batches) : List (Nat × String) :=
  batches.flatMap (fun kv =>
    (((kv.2.2.mergeSort priLe).take maxStocks).filterMap (fun st =>
      match st.id with
      | some s => if s = "" then none else some (kv.1, s)
      | none => none)))

/-- The position frame handed to the backtest (dates × instrument
columns). -/
structure PositionDf where
  dates : List Nat
  cols : List String
  vals : List (List Bool)
deriving DecidableEq

/-- `drop_duplicates` / `pivot` / `fillna(0)` / `resample('D').ffill()` /
trailing-edge extension to the latest market date / column reindex to the
universe / `astype(bool)`.  A cell `(d, c)` holds the signal of the latest
aligned date `≤ d` for column `c`; unknown columns are `False`. -/
def positionFromRecords (recs0 : List (Nat × String)) (universeDates : List Nat)
    (universeCols : List String) : PositionDf :=
  let recs := recs0.eraseDups
  let keyList := recs.map Prod.fst
  let pcols := recs.map Prod.snd
  let minKey := (keyList.min?).getD 0
  let maxKey := (keyList.max?).getD 0
  let endD :=
    match universeDates.max? with
    | some m => if maxKey < m then m else maxKey
    | none => maxKey
  let dates := List.range' minKey (endD + 1 - minKey)
  let cell := fun (d : Nat) (c : String) =>
    match (keyList.filter (fun k => decide (k ≤ d))).max? with
    | some k => decide ((k, c) ∈ recs)
    | none => false
  { dates := dates
    cols := universeCols
    vals := dates.map (fun d => universeCols.map (fun c =>
      if c ∈ pcols then cell d c else false)) }

/-- `RogerTWStrategyBase._create_position_df`: `None` when no usable
recommendation rows survive. -/
def createPositionDf (maxStocks : Nat) (records : List RecRecord)
    (universeDates : List Nat) (universeCols : List String) : Option PositionDf :=
  let recs := sigRecords maxStocks (buildWeeklyBatches records)
  if recs.isEmpty then none
  else some (positionFromRecords recs universeDates universeCols)

/-- `RogerTWStrategyBase._apply_trading_window` (weekday values are the
stored, already-decremented ones). -/
def applyTradingWindow (buyW sellW : Int) (p : PositionDf) : PositionDf :=
  if buyW = sellW then p
  else
    let mask := fun (d : Nat) =>
      let dow : Int := ((d % 7 : Nat) : Int)
      if buyW < sellW then decide (buyW ≤ dow) && decide (dow < sellW)
      else decide (buyW ≤ dow) || decide (dow < sellW)
    { p with vals := (p.dates.zip p.vals).map (fun dv =>
        if mask dv.1 then dv.2 else p.cols.map (fun _ => false)) }

/-- `position.shift(-1)`: every row moves up one day, the last row becomes
missing (read as no-position downstream). -/
def shiftUpRows (p : PositionDf) : PositionDf :=
  match p.vals with
  | [] => p
  | _ :: tl => { p with vals := tl ++ [p.cols.map (fun _ => false)] }

/-- `RogerTWStrategyBase.run_strategy`: build the position frame, apply the
trading window when the weekdays differ, shift by minus one day, and hand
the result to the simulator.  When `_create_position_df` returns `None`,
the first attribute access on it raises. -/
def runRogerStrategy (maxStocks : Nat) (buyW sellW : Int) (records : List RecRecord)
    (universeDates : List Nat) (universeCols : List String) : Except String PositionDf :=
  match createPositionDf maxStocks records universeDates universeCols with
  | none =>
    if buyW ≠ sellW then
      Except.error "AttributeError: NoneType object has no attribute index"
    else
      Except.error "AttributeError: NoneType object has no attribute shift"
  | some pos =>
    let pos1 := if buyW ≠ sellW then applyTradingWindow buyW sellW pos else pos
    Except.ok (shiftUpRows pos1)

/-! ## `RogerTWStrategyBase.__init__` -/

/-- The five-character weekday string indexed by the log line of
`RogerTWStrategyBase.__init__`. -/
def weekdayChars : List Char := ['一', '二', '三', '四', '五']

/-- Python string indexing: negative indices count from the end; anything
outside `[-len, len)` raises `IndexError`. -/
def pyStrGet (s : List Char) (i : Int) : Except String Char :=
  let n : Int := (s.length : Int)
  if 0 ≤ i ∧ i < n then Except.ok (s.getD i.toNat ' ')
  else if -n ≤ i ∧ i < 0 then Except.ok (s.getD (n + i).toNat ' ')
  else Except.error "IndexError: string index out of range"

structure RogerParams where
  maxStocks : Nat
  buyWeekday : Int
  sellWeekday : Int
deriving DecidableEq

/-- `RogerTWStrategyBase.__init__` after the config read: store
`buy_weekday - 1` and `sell_weekday - 1`, then format the log line, whose
only validation effect is the two string indexings. -/
def rogerInit (maxStocksCfg : Nat) (buyWeekdayCfg sellWeekdayCfg : Int) :
    Except String RogerParams :=
  let buyWeekday := buyWeekdayCfg - 1
  let sellWeekday := sellWeekdayCfg - 1
  match pyStrGet weekdayChars buyWeekday, pyStrGet weekdayChars sellWeekday with
  | Except.ok _, Except.ok _ =>
    Except.ok { maxStocks := maxStocksCfg, buyWeekday := buyWeekday, sellWeekday := sellWeekday }
  | Except.error e, _ => Except.error e
  | _, Except.error e => Except.error e

/-! ## `RogerTWStrategyMonthly.__init__`

Its `super().__init__(...)` call passes keyword arguments that
`RogerTWStrategyBase.__init__(self, task_name, config_path="config.yaml")`
does not declare, so python raises `TypeError` while binding the call,
before the base initializer body runs. -/

def rogerBaseParamNames : List String := ["task_name", "config_path"]

def monthlyInitKwargNames : List String :=
  ["task_name", "max_stocks", "buy_weekday", "sell_weekday", "config_path"]

/-- Python keyword-argument binding: the first keyword not among the
declared parameters raises `TypeError`. -/
def bindKwargs (accepted kwargs : List String) : Except String Unit :=
  match kwargs.find? (fun k => !(accepted.contains k)) with
  | some k => Except.error ("TypeError: __init__ got an unexpected keyword argument " ++ k)
  | none => Except.ok ()

/-- `RogerTWStrategyMonthly.__init__(config_path)`: bind the super call;
only on success would the base initializer body run. -/
def monthlyInit (_configPath : String) : Except String Unit :=
  match bindKwargs rogerBaseParamNames monthlyInitKwargNames with
  | Except.error e => Except.error e
  | Except.ok _ => Except.ok ()

/-! ## Helper views used by the proofs -/

/-- Fold of the strictly-newer-wins update on the entries of one aligned
period key. -/
def entryStep (st : Option (Nat × List Stock)) (e : Nat × List Stock) :
    Option (Nat × List Stock) :=
  match st with
  | none => some e
  | some (d0, s0) => if d0 < e.1 then some e else some (d0, s0)

/-- The valid records of a list mapping to aligned key `k`, as
`(original_date, stocks)` entries in arrival order. -/
def keyEntries (k : Nat) (records : List RecRecord) : List (Nat × List Stock) :=
  records.filterMap (fun r =>
    match r.date with
    | none => none
    | some d =>
      if r.stocks.isEmpty then none
      else if alignedDate d = k then some (d, r.stocks) else none)

/-! ## Concrete sample inputs used to exercise the definitions -/

/-- A one-day, one-instrument market snapshot. -/
def sampleMD : MarketData :=
  { adjClose := [[some 100]]
    volume := [[some 2000000]]
    foreignNetBuy := [[some 5]]
    trustNetBuy := [[some 3]]
    dealerNetBuy := [[some (-1)]]
    sar := [[some 95]]
    dif := [[some 2]]
    dea := [[some 1]] }

/-- A Monday recommendation (day 0). -/
def recMonday : RecRecord := ⟨some 0, [⟨some "AAA", some 1⟩]⟩

/-- A Wednesday recommendation of the same week (day 2). -/
def recWednesday : RecRecord := ⟨some 2, [⟨some "BBB", some 1⟩]⟩

section StreakLemmas

/-- Prefix sums over `Nat` lists are monotone in the prefix length. -/
lemma sum_take_mono (l : List Nat) : ∀ m m' : Nat, m ≤ m' →
    (l.take m).sum ≤ (l.take m').sum := by
  induction l with
  | nil => intro m m' _; simp
  | cons a l ih =>
    intro m m' h
    cases m with
    | zero => simp
    | succ m =>
      cases m' with
      | zero => omega
      | succ m' =>
        simp only [List.take_succ_cons, List.sum_cons]
        exact Nat.add_le_add_left (ih m m' (Nat.le_of_succ_le_succ h)) a

lemma sum_take_succ_getD (l : List Nat) (i : Nat) (h : i < l.length) :
    (l.take (i + 1)).sum = (l.take i).sum + l.getD i 0 := by
  rw [List.getD_eq_getElem l 0 h, List.sum_take_succ]

lemma colStreak_length (col : List (Option Bool)) :
    (colStreak col).length = col.length := by
  simp [colStreak, pdGroupbyCumsum]

/-- The group key at index `i` is the number of `False` entries among the
first `i + 1` boolean values. -/
lemma colStreak_group (col : List (Option Bool)) (i : Nat) (h : i < col.length) :
    (pdCumsum ((col.map optB).map (fun v => if v then 0 else 1))).getD i 0 =
      fCnt col (i + 1) := by
  have hlen : i < (((col.map optB).map (fun v => if v then 0 else 1)).length) := by
    simpa using h
  rw [pdCumsum, List.getD_eq_getElem _ 0 (by simpa using hlen)]
  simp [fCnt]

lemma fCnt_succ (col : List (Option Bool)) (i : Nat) (h : i < col.length) :
    fCnt col (i + 1) = fCnt col i + (if optB (col.getD i none) then 0 else 1) := by
  unfold fCnt
  rw [sum_take_succ_getD _ i (by simpa using h)]
  congr 1
  rw [List.getD_eq_getElem _ 0 (by simpa using h), List.getElem_map, List.getElem_map,
    List.getD_eq_getElem _ none h]

lemma fCnt_mono (col : List (Option Bool)) {m m' : Nat} (h : m ≤ m') :
    fCnt col m ≤ fCnt col m' :=
  sum_take_mono _ m m' h

lemma valT_getD (col : List (Option Bool)) (j : Nat) (h : j < col.length) :
    ((col.map optB).map (fun v => if v then 1 else 0)).getD j 0 =
      (if optB (col.getD j none) then 1 else 0) := by
  rw [List.getD_eq_getElem _ 0 (by simpa using h), List.getElem_map, List.getElem_map,
    List.getD_eq_getElem _ none h]

/-- The streak value at row `i`, unfolded to the groupby-cumsum sum. -/
lemma colStreak_getD (col : List (Option Bool)) (i : Nat) (h : i < col.length) :
    (colStreak col).getD i 0 =
      ((List.range (i + 1)).map (fun j =>
        if (pdCumsum ((col.map optB).map (fun v => if v then 0 else 1))).getD j 0 =
            (pdCumsum ((col.map optB).map (fun v => if v then 0 else 1))).getD i 0
        then ((col.map optB).map (fun v => if v then 1 else 0)).getD j 0 else 0)).sum := by
  simp only [colStreak, pdGroupbyCumsum]
  rw [List.getD_eq_getElem _ 0 (by simpa using h)]
  simp

/-- A `False` (or missing) value resets the streak to `0` at that very row. -/
lemma streak_reset (col : List (Option Bool)) (i : Nat) (h : i < col.length)
    (hb : optB (col.getD i none) = false) :
    (colStreak col).getD i 0 = 0 := by
  rw [colStreak_getD col i h]
  apply List.sum_eq_zero
  intro x hx
  obtain ⟨j, hj, rfl⟩ := List.mem_map.1 hx
  have hj' : j < i + 1 := List.mem_range.1 hj
  by_cases hcase : j = i
  · subst hcase
    rw [if_pos rfl, valT_getD col j (by omega), hb]
    simp
  · have hji : j < i := by omega
    rw [if_neg]
    rw [colStreak_group col j (by omega), colStreak_group col i h]
    have h3 : fCnt col (i + 1) = fCnt col i + 1 := by
      rw [fCnt_succ col i h, hb]; simp
    have h4 : fCnt col (j + 1) ≤ fCnt col i := fCnt_mono col (by omega)
    omega

/-- A `True` value increments the previous row's streak by one. -/
lemma streak_incr (col : List (Option Bool)) (i : Nat) (h : i + 1 < col.length)
    (hb : optB (col.getD (i + 1) none) = true) :
    (colStreak col).getD (i + 1) 0 = (colStreak col).getD i 0 + 1 := by
  rw [colStreak_getD col (i + 1) h, colStreak_getD col i (by omega)]
  have hgg : (pdCumsum ((col.map optB).map (fun v => if v then 0 else 1))).getD (i + 1) 0 =
      (pdCumsum ((col.map optB).map (fun v => if v then 0 else 1))).getD i 0 := by
    rw [colStreak_group col (i + 1) h, colStreak_group col i (by omega),
      fCnt_succ col (i + 1) h, hb]
    simp
  rw [List.range_succ, List.map_append, List.sum_append]
  simp only [hgg, List.map_cons, List.map_nil, List.sum_cons, List.sum_nil, if_pos rfl]
  rw [valT_getD col (i + 1) h, hb]
  simp

/-- Along a run of `True` values the streak grows by exactly the run length. -/
lemma streak_run_additive (col : List (Option Bool)) (i : Nat) :
    ∀ d : Nat, i + d < col.length →
    (∀ t, i < t → t ≤ i + d → optB (col.getD t none) = true) →
    (colStreak col).getD (i + d) 0 = (colStreak col).getD i 0 + d := by
  intro d
  induction d with
  | zero => intro _ _; simp
  | succ d ih =>
    intro h ht
    have hstep : (colStreak col).getD (i + d + 1) 0 = (colStreak col).getD (i + d) 0 + 1 := by
      apply streak_incr col (i + d) (by omega)
      exact ht (i + d + 1) (by omega) (by omega)
    have hih := ih (by omega) (fun t h1 h2 => ht t h1 (by omega))
    have : i + (d + 1) = i + d + 1 := by omega
    rw [this, hstep, hih]
    omega

end StreakLemmas

section AllocatorLemmas

lemma trueIndices_cons (b : Bool) (rest : List Bool) :
    trueIndices (b :: rest) = (if b then [0] else []) ++ (trueIndices rest).map (· + 1) := by
  unfold trueIndices
  show (List.range (rest.length + 1)).filter _ = _
  rw [List.range_succ_eq_map, List.filter_cons]
  cases b with
  | true =>
    simp only [List.getD_cons_zero, if_true, List.singleton_append, List.filter_map]
    congr 2
  | false =>
    simp only [List.getD_cons_zero, Bool.false_eq_true, if_false, List.nil_append,
      List.filter_map]
    congr 2

lemma mem_map_add_one (l : List Nat) (j : Nat) : (j + 1 ∈ l.map (· + 1)) ↔ j ∈ l := by
  constructor
  · intro h
    obtain ⟨a, ha, hEq⟩ := List.mem_map.1 h
    have : a = j := by omega
    subst this
    exact ha
  · intro h
    exact List.mem_map.2 ⟨j, h, rfl⟩

lemma zero_not_mem_map_add_one (l : List Nat) : 0 ∉ l.map (· + 1) := by
  simp [List.mem_map]

lemma mem_trueIndices (row : List Bool) (j : Nat) :
    j ∈ trueIndices row ↔ (j < row.length ∧ row.getD j false = true) := by
  unfold trueIndices
  rw [List.mem_filter, List.mem_range]

lemma mem_trueIndices_take : ∀ (row : List Bool) (k j : Nat),
    (j ∈ (trueIndices row).take k) ↔
      (row.getD j false = true ∧ countTrue (row.take j) < k) := by
  intro row
  induction row with
  | nil => intro k j; simp [trueIndices, countTrue]
  | cons b rest ih =>
    intro k j
    rw [trueIndices_cons]
    cases b with
    | true =>
      cases k with
      | zero => simp
      | succ k' =>
        simp only [if_true, List.singleton_append, List.take_succ_cons, List.mem_cons]
        rw [← List.map_take]
        cases j with
        | zero => simp [countTrue]
        | succ j' =>
          simp only [Nat.succ_ne_zero, false_or, mem_map_add_one, ih,
            List.getD_cons_succ, List.take_succ_cons, countTrue, List.countP_cons]
          simp
    | false =>
      simp only [Bool.false_eq_true, if_false, List.nil_append]
      rw [← List.map_take]
      cases j with
      | zero =>
        simp only [List.getD_cons_zero, Bool.false_eq_true, false_and, iff_false]
        exact zero_not_mem_map_add_one _
      | succ j' =>
        simp only [mem_map_add_one, ih, List.getD_cons_succ, List.take_succ_cons, countTrue,
          List.countP_cons]
        simp

lemma foldSet_length : ∀ (idxs : List Nat) (base : List Bool),
    (idxs.foldl setTrue base).length = base.length := by
  intro idxs
  induction idxs with
  | nil => intro base; rfl
  | cons i idxs ih =>
    intro base
    show (idxs.foldl setTrue (base.set i true)).length = _
    rw [ih, List.length_set]

lemma getD_set_true (base : List Bool) (i j : Nat) :
    (base.set i true).getD j false =
      (base.getD j false || (decide (i = j) && decide (j < base.length))) := by
  by_cases hj : j < base.length
  · rw [List.getD_eq_getElem _ _ (by simpa using hj), List.getD_eq_getElem _ _ hj,
      List.getElem_set]
    by_cases hij : i = j <;> simp [hij, hj]
  · rw [List.getD_eq_default _ _ (by simpa using (Nat.le_of_not_lt hj)),
      List.getD_eq_default _ _ (Nat.le_of_not_lt hj)]
    simp [hj]

lemma foldSet_getD : ∀ (idxs : List Nat) (base : List Bool) (j : Nat),
    ((idxs.foldl setTrue base).getD j false) =
      (base.getD j false || (decide (j ∈ idxs) && decide (j < base.length))) := by
  intro idxs
  induction idxs with
  | nil => intro base j; simp
  | cons i idxs ih =>
    intro base j
    show ((idxs.foldl setTrue (setTrue base i)).getD j false) = _
    rw [ih]
    unfold setTrue
    rw [getD_set_true, List.length_set]
    by_cases h1 : j < base.length
    · by_cases h2 : i = j <;> by_cases h3 : j ∈ idxs <;>
        simp [h1, h2, h3, List.mem_cons, eq_comm]
    · simp [h1]

lemma getD_replicate_false (n j : Nat) :
    (List.replicate n false).getD j false = false := by
  by_cases h : j < n
  · rw [List.getD_eq_getElem _ _ (by simpa using h)]
    simp
  · rw [List.getD_eq_default _ _ (by simpa using (Nat.le_of_not_lt h))]

lemma trueIndices_eq_nil_of_not_any (row : List Bool) (h : row.any (fun b => b) = false) :
    trueIndices row = [] := by
  unfold trueIndices
  rw [List.filter_eq_nil_iff]
  intro j hj
  have hjlt : j < row.length := List.mem_range.1 hj
  have := List.any_eq_false.1 h (row.getD j false)
      (by rw [List.getD_eq_getElem _ _ hjlt]; exact List.getElem_mem hjlt)
  simpa using this

lemma oscarSelectRow_getD (k : Nat) (row : List Bool) (j : Nat) :
    (oscarSelectRow k row).getD j false = decide (j ∈ (trueIndices row).take k) := by
  unfold oscarSelectRow
  by_cases hany : row.any (fun b => b)
  · rw [if_pos hany, foldSet_getD, getD_replicate_false, List.length_replicate]
    by_cases hmem : j ∈ (trueIndices row).take k
    · have hlt : j < row.length :=
        ((mem_trueIndices row j).1 (List.mem_of_mem_take hmem)).1
      simp [hmem, hlt]
    · simp [hmem]
  · rw [if_neg hany, getD_replicate_false]
    rw [trueIndices_eq_nil_of_not_any row (by simpa using hany)]
    simp

lemma keepFirstK_length : ∀ (row : List Bool) (k : Nat),
    (keepFirstK k row).length = row.length := by
  intro row
  induction row with
  | nil => intro k; rfl
  | cons b rest ih =>
    intro k
    cases b with
    | true =>
      cases k with
      | zero => simp [keepFirstK, ih]
      | succ k' => simp [keepFirstK, ih]
    | false => simp [keepFirstK, ih]

lemma keepFirstK_getD : ∀ (row : List Bool) (k j : Nat),
    (keepFirstK k row).getD j false =
      (row.getD j false && decide (countTrue (row.take j) < k)) := by
  intro row
  induction row with
  | nil => intro k j; simp [keepFirstK]
  | cons b rest ih =>
    intro k j
    cases b with
    | true =>
      cases k with
      | zero =>
        show (false :: keepFirstK 0 rest).getD j false = _
        cases j with
        | zero => simp
        | succ j' =>
          rw [List.getD_cons_succ, List.getD_cons_succ, ih]
          simp
      | succ k' =>
        show (true :: keepFirstK k' rest).getD j false = _
        cases j with
        | zero => simp [countTrue]
        | succ j' =>
          rw [List.getD_cons_succ, List.getD_cons_succ, ih]
          simp [countTrue, List.countP_cons]
    | false =>
      show (false :: keepFirstK k rest).getD j false = _
      cases j with
      | zero => simp
      | succ j' =>
        rw [List.getD_cons_succ, List.getD_cons_succ, ih]
        simp [countTrue, List.countP_cons]

lemma oscarSelectRow_length (k : Nat) (row : List Bool) :
    (oscarSelectRow k row).length = row.length := by
  unfold oscarSelectRow
  by_cases hany : row.any (fun b => b)
  · rw [if_pos hany, foldSet_length, List.length_replicate]
  · rw [if_neg hany, List.length_replicate]

lemma oscarSelectRow_eq_keepFirstK (k : Nat) (row : List Bool) :
    oscarSelectRow k row = keepFirstK k row := by
  apply List.ext_getElem
  · rw [oscarSelectRow_length, keepFirstK_length]
  · intro j h1 h2
    rw [← List.getD_eq_getElem _ false h1, ← List.getD_eq_getElem _ false h2,
      oscarSelectRow_getD, keepFirstK_getD]
    have hiff := mem_trueIndices_take row k j
    by_cases hmem : j ∈ (trueIndices row).take k
    · have hc := hiff.1 hmem
      rw [hc.1, Bool.true_and, decide_eq_true hmem, decide_eq_true hc.2]
    · by_cases hb : row.getD j false = true
      · have hnc : ¬ countTrue (row.take j) < k := fun hc => hmem (hiff.2 ⟨hb, hc⟩)
        rw [hb, Bool.true_and, decide_eq_false hmem, decide_eq_false hnc]
      · simp only [Bool.not_eq_true] at hb
        rw [hb, Bool.false_and, decide_eq_false hmem]

lemma trueIndices_length : ∀ (row : List Bool),
    (trueIndices row).length = countTrue row := by
  intro row
  induction row with
  | nil => rfl
  | cons b rest ih =>
    rw [trueIndices_cons, List.length_append, List.length_map, ih]
    cases b with
    | true =>
      simp [countTrue, List.countP_cons]
      omega
    | false => simp [countTrue, List.countP_cons]

lemma countTrue_take_succ (row : List Bool) (j : Nat) (h : j < row.length) :
    countTrue (row.take (j + 1)) =
      countTrue (row.take j) + (if row.getD j false then 1 else 0) := by
  unfold countTrue
  rw [List.take_succ, List.countP_append, List.getElem?_eq_getElem h]
  rw [List.getD_eq_getElem _ false h]
  cases hb : row[j] <;> simp [hb, List.countP_cons]

lemma countTrue_take_lt (row : List Bool) (j : Nat) (h : j < row.length)
    (hb : row.getD j false = true) :
    countTrue (row.take j) < countTrue row := by
  have h1 : countTrue (row.take (j + 1)) = countTrue (row.take j) + 1 := by
    rw [countTrue_take_succ row j h, hb]
    simp
  have h2 : countTrue (row.take (j + 1)) ≤ countTrue row := by
    unfold countTrue
    conv_rhs => rw [← List.take_append_drop (j + 1) row]
    rw [List.countP_append]
    omega
  omega

lemma keepFirstK_of_countTrue_le (row : List Bool) (k : Nat)
    (h : countTrue row ≤ k) : keepFirstK k row = row := by
  apply List.ext_getElem
  · rw [keepFirstK_length]
  · intro j h1 h2
    rw [← List.getD_eq_getElem _ false h1, ← List.getD_eq_getElem _ false h2,
      keepFirstK_getD]
    by_cases hb : row.getD j false = true
    · have := countTrue_take_lt row j h2 hb
      rw [hb, Bool.true_and, decide_eq_true (by omega)]
    · simp only [Bool.not_eq_true] at hb
      rw [hb, Bool.false_and]

lemma countTrue_eq_zero_of_not_any (row : List Bool) (h : row.any (fun b => b) = false) :
    countTrue row = 0 := by
  unfold countTrue
  rw [List.countP_eq_zero]
  intro b hb
  simpa using List.any_eq_false.1 h b hb

lemma numpyTruncRow_eq_keepFirstK (k : Nat) (row : List Bool) :
    numpyTruncRow k row = keepFirstK k row := by
  unfold numpyTruncRow
  by_cases hany : row.any (fun b => b)
  · rw [if_pos hany]
    by_cases hlt : k < (trueIndices row).length
    · simp only [if_pos hlt]
      have h := oscarSelectRow_eq_keepFirstK k row
      unfold oscarSelectRow at h
      rw [if_pos hany] at h
      exact h
    · simp only [if_neg hlt]
      rw [keepFirstK_of_countTrue_le row k (by rw [← trueIndices_length]; omega)]
  · rw [if_neg hany]
    rw [keepFirstK_of_countTrue_le row k
      (by rw [countTrue_eq_zero_of_not_any row (by simpa using hany)]; omega)]

lemma countTrue_keepFirstK : ∀ (row : List Bool) (k : Nat),
    countTrue (keepFirstK k row) = min k (countTrue row) := by
  intro row
  induction row with
  | nil => intro k; simp [keepFirstK, countTrue]
  | cons b rest ih =>
    intro k
    cases b with
    | true =>
      cases k with
      | zero =>
        show countTrue (false :: keepFirstK 0 rest) = min 0 (countTrue (true :: rest))
        rw [Nat.zero_min]
        unfold countTrue
        rw [List.countP_cons]
        have h0 := ih 0
        unfold countTrue at h0
        rw [Nat.zero_min] at h0
        simp [h0]
      | succ k' =>
        show countTrue (true :: keepFirstK k' rest) = min (k' + 1) (countTrue (true :: rest))
        unfold countTrue
        rw [List.countP_cons, List.countP_cons]
        have h0 := ih k'
        unfold countTrue at h0
        rw [h0]
        simp [Nat.succ_min_succ]
    | false =>
      show countTrue (false :: keepFirstK k rest) = min k (countTrue (false :: rest))
      unfold countTrue
      rw [List.countP_cons, List.countP_cons]
      have h0 := ih k
      unfold countTrue at h0
      rw [h0]
      simp

end AllocatorLemmas

section HoldUntilLemmas

lemma holdStep_idle (s : Bool) : holdStep s false false = s := by
  cases s <;> rfl

lemma holdUntilAux_length : ∀ (b sl : List Bool) (s : Bool), b.length = sl.length →
    (holdUntilAux s b sl).length = b.length := by
  intro b
  induction b with
  | nil => intro sl s _; cases sl <;> rfl
  | cons x xs ih =>
    intro sl s h
    cases sl with
    | nil => simp at h
    | cons y ys =>
      show (holdStep s x y :: holdUntilAux (holdStep s x y) xs ys).length = _
      simp only [List.length_cons]
      rw [ih ys (holdStep s x y) (by simpa using h)]

lemma holdUntilAux_dropLast : ∀ (b sl : List Bool) (s : Bool), b.length = sl.length →
    holdUntilAux s b.dropLast sl.dropLast = (holdUntilAux s b sl).dropLast := by
  intro b
  induction b with
  | nil => intro sl s _; cases sl <;> rfl
  | cons x xs ih =>
    intro sl s h
    cases sl with
    | nil => simp at h
    | cons y ys =>
      cases xs with
      | nil =>
        cases ys with
        | nil => rfl
        | cons y2 ys2 => simp at h
      | cons x2 xs2 =>
        cases ys with
        | nil => simp at h
        | cons y2 ys2 =>
          show holdUntilAux s (x :: (x2 :: xs2).dropLast) (y :: (y2 :: ys2).dropLast) = _
          show holdStep s x y :: holdUntilAux (holdStep s x y) (x2 :: xs2).dropLast
              (y2 :: ys2).dropLast = _
          rw [ih (y2 :: ys2) (holdStep s x y) (by simpa using h)]
          show _ = (holdStep s x y ::
            holdUntilAux (holdStep s x y) (x2 :: xs2) (y2 :: ys2)).dropLast
          have hne : holdUntilAux (holdStep s x y) (x2 :: xs2) (y2 :: ys2) ≠ [] := by
            show holdStep _ x2 y2 :: _ ≠ []
            exact List.cons_ne_nil _ _
          rw [List.dropLast_cons_of_ne_nil hne]

/-- Hold-until and the one-period forward shift commute on one instrument
column. -/
lemma holdUntil_shift_col (buy sell : List Bool) (h : buy.length = sell.length) :
    holdUntilCol (shiftCol buy) (shiftCol sell) = shiftCol (holdUntilCol buy sell) := by
  cases buy with
  | nil =>
    cases sell with
    | nil => rfl
    | cons y ys => simp at h
  | cons x xs =>
    cases sell with
    | nil => simp at h
    | cons y ys =>
      show holdUntilCol (false :: (x :: xs).dropLast) (false :: (y :: ys).dropLast) = _
      unfold holdUntilCol
      show holdStep false false false ::
          holdUntilAux (holdStep false false false) (x :: xs).dropLast (y :: ys).dropLast = _
      rw [holdStep_idle]
      rw [holdUntilAux_dropLast (x :: xs) (y :: ys) false h]
      have hcons : holdUntilAux false (x :: xs) (y :: ys) =
          holdStep false x y :: holdUntilAux (holdStep false x y) xs ys := rfl
      rw [hcons]
      rfl

end HoldUntilLemmas

section CellLemmas

lemma zipWith_and_getD : ∀ (l1 l2 : List Bool) (j : Nat),
    (List.zipWith and l1 l2).getD j false = (l1.getD j false && l2.getD j false) := by
  intro l1
  induction l1 with
  | nil => intro l2 j; simp
  | cons a l1 ih =>
    intro l2 j
    cases l2 with
    | nil => simp
    | cons b l2 =>
      cases j with
      | zero => rfl
      | succ j' =>
        show (List.zipWith and l1 l2).getD j' false = _
        rw [ih, List.getD_cons_succ, List.getD_cons_succ]

lemma matAnd_cellD : ∀ (A B : BoolM) (i j : Nat),
    cellD (matAnd A B) i j = (cellD A i j && cellD B i j) := by
  intro A
  induction A with
  | nil => intro B i j; simp [cellD, matAnd, matZip]
  | cons r A ih =>
    intro B i j
    cases B with
    | nil => simp [cellD, matAnd, matZip]
    | cons r2 B =>
      cases i with
      | zero =>
        show (List.zipWith and r r2).getD j false = _
        rw [zipWith_and_getD]
        rfl
      | succ i' =>
        show cellD (List.zipWith (List.zipWith and) A B) i' j = _
        exact ih B i' j

lemma zipWith_or_getD : ∀ (l1 l2 : List Bool) (j : Nat), j < l1.length → j < l2.length →
    (List.zipWith or l1 l2).getD j false = (l1.getD j false || l2.getD j false) := by
  intro l1
  induction l1 with
  | nil => intro l2 j h1 _; simp at h1
  | cons a l1 ih =>
    intro l2 j h1 h2
    cases l2 with
    | nil => simp at h2
    | cons b l2 =>
      cases j with
      | zero => rfl
      | succ j' =>
        show (List.zipWith or l1 l2).getD j' false = _
        rw [ih l2 j' (by simpa using h1) (by simpa using h2), List.getD_cons_succ,
          List.getD_cons_succ]

lemma matOr_cellD : ∀ (A B : BoolM) (i j : Nat), i < A.length → i < B.length →
    j < (A.getD i []).length → j < (B.getD i []).length →
    cellD (matOr A B) i j = (cellD A i j || cellD B i j) := by
  intro A
  induction A with
  | nil => intro B i j h1 _ _ _; simp at h1
  | cons r A ih =>
    intro B i j h1 h2 h3 h4
    cases B with
    | nil => simp at h2
    | cons r2 B =>
      cases i with
      | zero =>
        show (List.zipWith or r r2).getD j false = _
        exact zipWith_or_getD r r2 j (by simpa using h3) (by simpa using h4)
      | succ i' =>
        show cellD (List.zipWith (List.zipWith or) A B) i' j = _
        exact ih B i' j (by simpa using h1) (by simpa using h2) (by simpa using h3)
          (by simpa using h4)

end CellLemmas

section HoldUntilMatrixLemmas

lemma holdUntil_shift_cols_aux : ∀ (buyCols sellCols : List (List Bool)),
    buyCols.map List.length = sellCols.map List.length →
    holdUntilCols (shiftCols buyCols) (shiftCols sellCols) =
      shiftCols (holdUntilCols buyCols sellCols) := by
  intro buyCols
  induction buyCols with
  | nil =>
    intro sellCols h
    cases sellCols with
    | nil => rfl
    | cons d ds => simp at h
  | cons c cs ih =>
    intro sellCols h
    cases sellCols with
    | nil => simp at h
    | cons d ds =>
      simp only [List.map_cons, List.cons.injEq] at h
      show holdUntilCol (shiftCol c) (shiftCol d) ::
          holdUntilCols (shiftCols cs) (shiftCols ds) =
        shiftCol (holdUntilCol c d) :: shiftCols (holdUntilCols cs ds)
      rw [holdUntil_shift_col c d h.1, ih ds h.2]

end HoldUntilMatrixLemmas

section BatchLemmas

lemma batchLookup_update_self : ∀ (bs : Batches) (k : Nat) (v : Nat × List Stock),
    batchLookup (batchUpdate bs k v) k = some v := by
  intro bs
  induction bs with
  | nil => intro k v; simp [batchUpdate, batchLookup]
  | cons kv rest ih =>
    intro k v
    obtain ⟨k', v'⟩ := kv
    show batchLookup (if k' = k then (k, v) :: rest else (k', v') :: batchUpdate rest k v) k = _
    by_cases hk : k' = k
    · rw [if_pos hk]
      simp [batchLookup]
    · rw [if_neg hk]
      show (if k' = k then some v' else batchLookup (batchUpdate rest k v) k) = _
      rw [if_neg hk, ih]

lemma batchLookup_update_ne : ∀ (bs : Batches) (k0 k : Nat) (v : Nat × List Stock),
    k0 ≠ k → batchLookup (batchUpdate bs k0 v) k = batchLookup bs k := by
  intro bs
  induction bs with
  | nil =>
    intro k0 k v hne
    show batchLookup [(k0, v)] k = none
    simp [batchLookup, hne]
  | cons kv rest ih =>
    intro k0 k v hne
    obtain ⟨k', v'⟩ := kv
    show batchLookup (if k' = k0 then (k0, v) :: rest else (k', v') :: batchUpdate rest k0 v) k =
      (if k' = k then some v' else batchLookup rest k)
    by_cases hk : k' = k0
    · rw [if_pos hk]
      show (if k0 = k then some v else batchLookup rest k) = _
      rw [if_neg hne, if_neg (by rw [hk]; exact hne)]
    · rw [if_neg hk]
      show (if k' = k then some v' else batchLookup (batchUpdate rest k0 v) k) = _
      by_cases hk2 : k' = k
      · rw [if_pos hk2, if_pos hk2]
      · rw [if_neg hk2, if_neg hk2, ih _ _ _ hne]

/-- The batching fold, observed at one key, is the strictly-newer-wins fold
over that key's entries. -/
lemma foldRecords_lookup : ∀ (records : List RecRecord) (bs : Batches) (k : Nat),
    batchLookup (records.foldl recFoldStep bs) k =
      (keyEntries k records).foldl entryStep (batchLookup bs k) := by
  intro records
  induction records with
  | nil => intro bs k; rfl
  | cons r rs ih =>
    intro bs k
    show batchLookup (rs.foldl recFoldStep (recFoldStep bs r)) k = _
    rw [ih (recFoldStep bs r) k]
    obtain ⟨dateOpt, stocks⟩ := r
    cases dateOpt with
    | none => rfl
    | some d =>
      cases stocks with
      | nil => rfl
      | cons st0 stRest =>
        by_cases hal : alignedDate d = k
        · have hstep : batchLookup (recFoldStep bs ⟨some d, st0 :: stRest⟩) k =
              entryStep (batchLookup bs k) (d, st0 :: stRest) := by
            show batchLookup
              (match batchLookup bs (alignedDate d) with
               | none => batchUpdate bs (alignedDate d) (d, st0 :: stRest)
               | some (d0, _) =>
                 if d0 < d then batchUpdate bs (alignedDate d) (d, st0 :: stRest) else bs) k = _
            rw [hal]
            cases hLook : batchLookup bs k with
            | none =>
              rw [batchLookup_update_self]
              rfl
            | some dv =>
              obtain ⟨d0, s0⟩ := dv
              show batchLookup (if d0 < d then batchUpdate bs k (d, st0 :: stRest) else bs) k = _
              by_cases hlt : d0 < d
              · rw [if_pos hlt, batchLookup_update_self]
                show _ = (if d0 < d then some (d, st0 :: stRest) else some (d0, s0))
                rw [if_pos hlt]
              · rw [if_neg hlt, hLook]
                show _ = (if d0 < d then some (d, st0 :: stRest) else some (d0, s0))
                rw [if_neg hlt]
          rw [hstep]
          have hke : keyEntries k (⟨some d, st0 :: stRest⟩ :: rs) =
              (d, st0 :: stRest) :: keyEntries k rs := by
            simp only [keyEntries, List.filterMap_cons, List.isEmpty_cons,
              Bool.false_eq_true, if_false, if_pos hal]
          rw [hke]
          rfl
        · have hstep : batchLookup (recFoldStep bs ⟨some d, st0 :: stRest⟩) k =
              batchLookup bs k := by
            show batchLookup
              (match batchLookup bs (alignedDate d) with
               | none => batchUpdate bs (alignedDate d) (d, st0 :: stRest)
               | some (d0, _) =>
                 if d0 < d then batchUpdate bs (alignedDate d) (d, st0 :: stRest) else bs) k = _
            cases hLook : batchLookup bs (alignedDate d) with
            | none => exact batchLookup_update_ne bs (alignedDate d) k (d, st0 :: stRest) hal
            | some dv =>
              obtain ⟨d0, s0⟩ := dv
              show batchLookup
                (if d0 < d then batchUpdate bs (alignedDate d) (d, st0 :: stRest) else bs) k = _
              by_cases hlt : d0 < d
              · rw [if_pos hlt]
                exact batchLookup_update_ne bs (alignedDate d) k (d, st0 :: stRest) hal
              · rw [if_neg hlt]
          rw [hstep]
          have hke : keyEntries k (⟨some d, st0 :: stRest⟩ :: rs) = keyEntries k rs := by
            simp only [keyEntries, List.filterMap_cons, List.isEmpty_cons,
              Bool.false_eq_true, if_false, if_neg hal]
          rw [hke]

lemma entryFold_keep (d : Nat) (s : List Stock) : ∀ (es : List (Nat × List Stock)),
    (∀ e ∈ es, e = (d, s) ∨ e.1 < d) →
    es.foldl entryStep (some (d, s)) = some (d, s) := by
  intro es
  induction es with
  | nil => intro _; rfl
  | cons e es ih =>
    intro h
    have hstep : entryStep (some (d, s)) e = some (d, s) := by
      show (if d < e.1 then some e else some (d, s)) = some (d, s)
      rcases h e (List.mem_cons_self e es) with he | he
      · rw [if_neg (by rw [he]; omega)]
      · rw [if_neg (by omega)]
    show es.foldl entryStep (entryStep (some (d, s)) e) = some (d, s)
    rw [hstep]
    exact ih (fun e' he' => h e' (List.mem_cons_of_mem e he'))

lemma entryFold_reach (d : Nat) (s : List Stock) : ∀ (es : List (Nat × List Stock))
    (st : Option (Nat × List Stock)),
    (st = none ∨ ∃ d0 s0, st = some (d0, s0) ∧ d0 < d) →
    (d, s) ∈ es →
    (∀ e ∈ es, e = (d, s) ∨ e.1 < d) →
    es.foldl entryStep st = some (d, s) := by
  intro es
  induction es with
  | nil => intro st _ hmem _; simp at hmem
  | cons e es ih =>
    intro st hst hmem hall
    by_cases he : e = (d, s)
    · have hstep : entryStep st e = some (d, s) := by
        rcases hst with h0 | ⟨d0, s0, h0, hlt⟩
        · rw [h0]
          show some e = some (d, s)
          rw [he]
        · rw [h0, he]
          show (if d0 < d then some (d, s) else some (d0, s0)) = some (d, s)
          rw [if_pos hlt]
      show es.foldl entryStep (entryStep st e) = some (d, s)
      rw [hstep]
      exact entryFold_keep d s es (fun e' he' => hall e' (List.mem_cons_of_mem e he'))
    · have he2 : e.1 < d := (hall e (List.mem_cons_self e es)).resolve_left he
      have hmem2 : (d, s) ∈ es := by
        rcases List.mem_cons.1 hmem with h0 | h0
        · exact absurd h0.symm he
        · exact h0
      have hst2 : entryStep st e = none ∨
          ∃ d0 s0, entryStep st e = some (d0, s0) ∧ d0 < d := by
        rcases hst with h0 | ⟨d0, s0, h0, hlt⟩
        · right
          exact ⟨e.1, e.2, by rw [h0]; rfl, he2⟩
        · right
          rw [h0]
          show ∃ d1 s1, (if d0 < e.1 then some e else some (d0, s0)) = some (d1, s1) ∧ d1 < d
          by_cases hlt2 : d0 < e.1
          · exact ⟨e.1, e.2, by rw [if_pos hlt2], he2⟩
          · exact ⟨d0, s0, by rw [if_neg hlt2], hlt⟩
      show es.foldl entryStep (entryStep st e) = some (d, s)
      exact ih (entryStep st e) hst2 hmem2 (fun e' he' => hall e' (List.mem_cons_of_mem e he'))

lemma foldl_recFoldStep_invalid : ∀ (records : List RecRecord) (bs : Batches),
    (∀ r ∈ records, recValid r = false) → records.foldl recFoldStep bs = bs := by
  intro records
  induction records with
  | nil => intro bs _; rfl
  | cons r rs ih =>
    intro bs h
    have hr := h r (List.mem_cons_self r rs)
    have hstep : recFoldStep bs r = bs := by
      obtain ⟨dateOpt, stocks⟩ := r
      cases dateOpt with
      | none => rfl
      | some d =>
        cases stocks with
        | nil => rfl
        | cons st0 stRest =>
          exfalso
          simp [recValid] at hr
    show rs.foldl recFoldStep (recFoldStep bs r) = bs
    rw [hstep]
    exact ih bs (fun r' hr' => h r' (List.mem_cons_of_mem r hr'))

end BatchLemmas

/-! ## Claim theorems -/

/-- Claim C1: for every base eligibility matrix and capacity `K ≥ 1`,
`run_strategy`'s per-date loop selects, for each date independently, exactly
the first `min(K, eligible_count)` eligible instruments in fixed column
order; in particular it never marks more than `K` instruments and marks
exactly `min(K, eligible_count)`. -/
theorem claim1_capacity_allocator (m : List (List Bool)) (k i : Nat)
    (_hk : 1 ≤ k) (hi : i < m.length) :
    countTrue ((oscarAllocate k m).getD i []) ≤ k ∧
    countTrue ((oscarAllocate k m).getD i []) = min k (countTrue (m.getD i [])) ∧
    (∀ j : Nat, ((oscarAllocate k m).getD i []).getD j false = true ↔
      j ∈ (trueIndices (m.getD i [])).take k) := by
  have hrow : (oscarAllocate k m).getD i [] = oscarSelectRow k (m.getD i []) := by
    unfold oscarAllocate
    rw [List.getD_eq_getElem _ _ (by simpa using hi), List.getElem_map,
      List.getD_eq_getElem _ _ hi]
  have h1 : countTrue (oscarSelectRow k (m.getD i [])) =
      min k (countTrue (m.getD i [])) := by
    rw [oscarSelectRow_eq_keepFirstK, countTrue_keepFirstK]
  refine ⟨?_, ?_, ?_⟩
  · rw [hrow, h1]
    omega
  · rw [hrow, h1]
  · intro j
    rw [hrow, oscarSelectRow_getD]
    simp

/-- Claim C1 witness at a concrete matrix and capacity. -/
theorem claim1_witness :
    countTrue ((oscarAllocate 2 [[true, true, true]]).getD 0 []) =
      min 2 (countTrue ([[true, true, true]].getD 0 [])) :=
  (claim1_capacity_allocator [[true, true, true]] 2 0 (by decide) (by decide)).2.1

/-- Claim C2 counterexample: for the column `[False, True]`, the streak one
row after the `False` is `1`, not `0`; the reset happens at the row of the
`False` itself. -/
theorem claim2_counterexample :
    optB (([some false, some true] : List (Option Bool)).getD 0 none) = false ∧
    (colStreak [some false, some true]).getD 1 0 = 1 := by decide

/-- Claim C2 (amended): `_streak` resets to `0` at the row of any `False`
(missing treated as `False`), and is strictly increasing within each maximal
run of consecutive `True` values. -/
theorem claim2_streak_reset_and_increase (col : List (Option Bool)) (i j : Nat)
    (hi : i < col.length) (hj : j < col.length) :
    (optB (col.getD i none) = false → (colStreak col).getD i 0 = 0) ∧
    (i < j → (∀ t, i ≤ t → t ≤ j → optB (col.getD t none) = true) →
      (colStreak col).getD i 0 < (colStreak col).getD j 0) := by
  constructor
  · exact fun hb => streak_reset col i hi hb
  · intro hij ht
    have hd : i + (j - i) = j := by omega
    have hadd := streak_run_additive col i (j - i) (by omega)
      (fun t h1 h2 => ht t (by omega) (by omega))
    rw [hd] at hadd
    omega

/-- Claim C2 witness at a concrete column. -/
theorem claim2_witness :
    (colStreak [some true, some true, some false]).getD 2 0 = 0 ∧
    (colStreak [some true, some true, some false]).getD 0 0 <
      (colStreak [some true, some true, some false]).getD 1 0 :=
  ⟨(claim2_streak_reset_and_increase [some true, some true, some false] 2 0 (by decide)
      (by decide)).1 (by decide),
   (claim2_streak_reset_and_increase [some true, some true, some false] 0 1 (by decide)
      (by decide)).2 (by decide) (fun t h1 h2 => by interval_cases t <;> decide)⟩

/-- Claim C3: the composed buy matrix is the pointwise conjunction of exactly
four conditions — trend-zone buy (SAR in buy zone and not runaway-high),
MACD golden cross, volume filter, institutional-weak — and the composed sell
matrix is the pointwise disjunction of the SAR sell event and the MACD death
cross. -/
theorem claim3_buy_conj_sell_disj (md : MarketData) (maxDots i j : Nat)
    (hi1 : i < ((calcSarCondition md maxDots).2).length)
    (hi2 : i < ((calcMacdCondition md).2).length)
    (hj1 : j < (((calcSarCondition md maxDots).2).getD i []).length)
    (hj2 : j < (((calcMacdCondition md).2).getD i []).length) :
    cellD (buildBuyCondition md maxDots) i j =
      (cellD (calcSarCondition md maxDots).1 i j &&
       cellD (calcMacdCondition md).1 i j &&
       cellD (calcVolumeCondition md.volume) i j &&
       cellD (calcInstitutionalCondition md.foreignNetBuy md.trustNetBuy
         md.dealerNetBuy).2 i j) ∧
    cellD (buildSellCondition md maxDots) i j =
      (cellD (calcSarCondition md maxDots).2 i j ||
       cellD (calcMacdCondition md).2 i j) := by
  constructor
  · show cellD (matAnd (matAnd (matAnd (calcSarCondition md maxDots).1
        (calcMacdCondition md).1) (calcVolumeCondition md.volume))
        (calcInstitutionalCondition md.foreignNetBuy md.trustNetBuy
          md.dealerNetBuy).2) i j = _
    rw [matAnd_cellD, matAnd_cellD, matAnd_cellD]
  · show cellD (matOr (calcSarCondition md maxDots).2 (calcMacdCondition md).2) i j = _
    exact matOr_cellD _ _ i j hi1 hi2 hj1 hj2

/-- Claim C3 witness on the sample market snapshot. -/
theorem claim3_witness :
    cellD (buildSellCondition sampleMD 2) 0 0 =
      (cellD (calcSarCondition sampleMD 2).2 0 0 ||
       cellD (calcMacdCondition sampleMD).2 0 0) :=
  (claim3_buy_conj_sell_disj sampleMD 2 0 0 (by decide) (by decide) (by decide)
    (by decide)).2

/-- Claim C4: shifting the buy/sell event matrices forward by one trading
period and then applying hold-until equals applying hold-until first and then
shifting the position (per-instrument columns of equal length; the hold-until
state machine is modelled from spec §4.4, the finlab implementation being
external to the repository). -/
theorem claim4_shift_holdUntil_commute (buyCols sellCols : List (List Bool))
    (h : buyCols.map List.length = sellCols.map List.length) :
    holdUntilCols (shiftCols buyCols) (shiftCols sellCols) =
      shiftCols (holdUntilCols buyCols sellCols) :=
  holdUntil_shift_cols_aux buyCols sellCols h

/-- Claim C4 witness on concrete event matrices. -/
theorem claim4_witness :
    holdUntilCols (shiftCols [[true, false, false], [false, true, false]])
        (shiftCols [[false, true, false], [true, false, true]]) =
      shiftCols (holdUntilCols [[true, false, false], [false, true, false]]
        [[false, true, false], [true, false, true]]) :=
  claim4_shift_holdUntil_commute [[true, false, false], [false, true, false]]
    [[false, true, false], [true, false, true]] (by decide)

/-- Claim C5: whenever records map to the same aligned period key, the record
with the strictly later original date is the one retained in the weekly
batch, regardless of the order in which the records arrive (stated for an
arbitrary arrival list in which `r` is the strictly-latest valid record of
its key). -/
theorem claim5_latest_record_wins (records : List RecRecord) (r : RecRecord) (d : Nat)
    (hr : r ∈ records) (hd : r.date = some d) (hs : r.stocks.isEmpty = false)
    (hmax : ∀ r' ∈ records, r'.date.isSome = true → r'.stocks.isEmpty = false →
      r'.date.map alignedDate = some (alignedDate d) → r' = r ∨ r'.date.getD 0 < d) :
    batchLookup (buildWeeklyBatches records) (alignedDate d) = some (d, r.stocks) := by
  unfold buildWeeklyBatches
  rw [foldRecords_lookup records [] (alignedDate d)]
  show (keyEntries (alignedDate d) records).foldl entryStep none = some (d, r.stocks)
  apply entryFold_reach d r.stocks (keyEntries (alignedDate d) records) none (Or.inl rfl)
  · apply List.mem_filterMap.2
    refine ⟨r, hr, ?_⟩
    simp [hd, hs]
  · intro e he
    obtain ⟨r', hr', hf⟩ := List.mem_filterMap.1 he
    cases hdate : r'.date with
    | none =>
      rw [hdate] at hf
      exact absurd hf (by simp)
    | some d' =>
      rw [hdate] at hf
      cases hemp : r'.stocks.isEmpty with
      | true =>
        simp only [hemp, if_true] at hf
        exact absurd hf (by simp)
      | false =>
        simp only [hemp, Bool.false_eq_true, if_false] at hf
        by_cases hal : alignedDate d' = alignedDate d
        · rw [if_pos hal] at hf
          have he2 : e = (d', r'.stocks) := (Option.some.inj hf).symm
          rcases hmax r' hr' (by rw [hdate]; rfl) hemp (by rw [hdate]; simp [hal])
            with hEq | hLt
          · left
            rw [he2, hEq]
            have : d' = d := by
              rw [hEq] at hdate
              rw [hd] at hdate
              exact (Option.some.inj hdate).symm
            rw [this]
          · right
            rw [hdate] at hLt
            rw [he2]
            simpa using hLt
        · rw [if_neg hal] at hf
          exact absurd hf (by simp)

/-- Claim C5 witness: a Monday and a Wednesday record of the same week, in
both arrival orders; the Wednesday list is retained. -/
theorem claim5_witness :
    batchLookup (buildWeeklyBatches [recMonday, recWednesday]) (alignedDate 2) =
      some (2, recWednesday.stocks) ∧
    batchLookup (buildWeeklyBatches [recWednesday, recMonday]) (alignedDate 2) =
      some (2, recWednesday.stocks) :=
  ⟨claim5_latest_record_wins [recMonday, recWednesday] recWednesday 2 (by decide)
      (by decide) (by decide) (by decide),
   claim5_latest_record_wins [recWednesday, recMonday] recWednesday 2 (by decide)
      (by decide) (by decide) (by decide)⟩

/-- Claim C6 (code bug): with no valid recommendation records,
`_create_position_df` does return the empty result `None`, but
`run_strategy` then dereferences `None` (`position.index` or
`position.shift`) and raises instead of completing. -/
theorem claim6_empty_records_raise (maxStocks : Nat) (buyW sellW : Int)
    (universeDates : List Nat) (universeCols : List String) (records : List RecRecord)
    (hinv : ∀ r ∈ records, recValid r = false) :
    createPositionDf maxStocks records universeDates universeCols = none ∧
    ∃ msg, runRogerStrategy maxStocks buyW sellW records universeDates universeCols =
      Except.error msg := by
  have hb : buildWeeklyBatches records = [] := foldl_recFoldStep_invalid records [] hinv
  have hc : createPositionDf maxStocks records universeDates universeCols = none := by
    unfold createPositionDf
    rw [hb]
    rfl
  refine ⟨hc, ?_⟩
  unfold runRogerStrategy
  rw [hc]
  by_cases hbw : buyW ≠ sellW
  · exact ⟨_, by rw [if_pos hbw]⟩
  · exact ⟨_, by rw [if_neg hbw]⟩

/-- Claim C6 witness: the empty record list. -/
theorem claim6_witness :
    createPositionDf 5 [] [0, 1] ["AAA"] = none ∧
    ∃ msg, runRogerStrategy 5 0 4 [] [0, 1] ["AAA"] = Except.error msg :=
  claim6_empty_records_raise 5 0 4 [0, 1] ["AAA"] []
    (fun r hr => absurd hr (List.not_mem_nil r))

/-- Claim C7 (code bug): configured trading weekday `0` lies outside `1..5`,
yet construction succeeds — it stores `buy_weekday = -1`, which python
string indexing silently reads as the last character (Friday). No
validation rejects it. -/
theorem claim7_weekday_zero_accepted :
    rogerInit 5 0 5 = Except.ok ⟨5, -1, 4⟩ := rfl

/-- Claim C8: the per-date row-at-a-time truncation loop of `run_strategy`
and the numpy row-wise truncation of `_test_single_config` compute the same
result, both equal to the pure keep-only-the-first-K-True-entries-per-row
function. -/
theorem claim8_truncation_equivalence (m : List (List Bool)) (k : Nat) (_hk : 1 ≤ k) :
    oscarAllocate k m = numpyTruncate k m ∧
    numpyTruncate k m = m.map (keepFirstK k) := by
  have hOsc : oscarSelectRow k = keepFirstK k :=
    funext (fun row => oscarSelectRow_eq_keepFirstK k row)
  have hNum : numpyTruncRow k = keepFirstK k :=
    funext (fun row => numpyTruncRow_eq_keepFirstK k row)
  constructor
  · unfold oscarAllocate numpyTruncate
    rw [hOsc, hNum]
  · unfold numpyTruncate
    rw [hNum]

/-- Claim C8 witness at a concrete matrix. -/
theorem claim8_witness :
    oscarAllocate 1 [[true, true], [false, true]] =
      numpyTruncate 1 [[true, true], [false, true]] :=
  (claim8_truncation_equivalence [[true, true], [false, true]] 1 (by decide)).1

/-- Claim C9: `sar_reject_dots` is stored on the instance but never read by
any signal computation — two strategies over identical market data with the
same `sar_max_dots` but different `sar_reject_dots` have identical buy, sell
and base-position matrices. -/
theorem claim9_sar_reject_dots_unused (md : MarketData) (maxDots r1 r2 : Nat) :
    (oscarInit md maxDots r1).buySignal = (oscarInit md maxDots r2).buySignal ∧
    (oscarInit md maxDots r1).sellSignal = (oscarInit md maxDots r2).sellSignal ∧
    (oscarInit md maxDots r1).basePosition = (oscarInit md maxDots r2).basePosition :=
  ⟨rfl, rfl, rfl⟩

/-- Claim C10: for every config path, constructing `RogerTWStrategyMonthly`
raises `TypeError` while binding the super call (before any base state is
initialized), because `max_stocks`, `buy_weekday` and `sell_weekday` are not
parameters of `RogerTWStrategyBase.__init__`. -/
theorem claim10_monthly_init_type_error (configPath : String) :
    monthlyInit configPath =
      Except.error "TypeError: __init__ got an unexpected keyword argument max_stocks" :=
  rfl

end StockAnalysis
